import Mathlib

/-!
Verification of the invoice-sending core (`send_invoices.py`).

The Python source is embedded shallowly:

* pure string helpers (`extract_five_digit_accounts`, `split_emails`) become
  Lean functions on `Option String` (a `none` cell value models Python
  `None`); all character classes are the ASCII fragments actually exercised
  by the program (`\d` = `0`-`9`, `\w` = ASCII letters, digits and `_`,
  `\s` = space, tab, CR, LF);
* the file system and the SMTP transport become explicit parameters: a
  directory listing is a `DirListing` (successful listing, absent directory,
  or any other listing error), `isFile` models `os.path.isfile` on the entry
  name (for a fixed directory, `os.path.join` is injective in the name), and
  transport outcomes are Boolean oracles — `true` means the attempt's
  `sendmail` returns, `false` means a transient transport error
  (`smtplib.SMTPException`, `ConnectionError`, `OSError`) is raised;
* sleeps and attempts of the dispatch engine are recorded as an explicit
  event trace; durations are exact rationals modelling the Python float
  arithmetic `(2 ** attempt) * delay_between_emails`;
* raised exceptions become `Except`/`Option String` error values threaded
  through the row-processing fold.
-/

/-- ASCII decimal digit, the fragment of Python regex `\d` used here. -/
def isDigitChar (c : Char) : Bool :=
  '0' ≤ c && c ≤ '9'

/-- ASCII word character, the fragment of Python regex `\w` used here
(`\b` in `\b(\d{5})\b` separates word and non-word characters). -/
def isWordChar (c : Char) : Bool :=
  isDigitChar c || ('a' ≤ c && c ≤ 'z') || ('A' ≤ c && c ≤ 'Z') || c = '_'

/-- Whitespace as stripped by Python `str.strip` and matched by `\s`
(ASCII fragment). -/
def isSpaceChar (c : Char) : Bool :=
  c = ' ' || c = '\t' || c = '\n' || c = '\r'

/-- Python `str.strip()`: drop leading and trailing whitespace. -/
def pyStrip (l : List Char) : List Char :=
  ((l.dropWhile isSpaceChar).reverse.dropWhile isSpaceChar).reverse

/-- `re.findall(r"\b(\d{5})\b", s)`: all maximal runs of digits of length
exactly 5 whose neighbours (when present) are non-word characters, in
order of occurrence.  `leftOk` says that the character just before the
current position (or before the current digit run, while inside one) is a
non-word character or the string edge; `cur` is the digit run read so far. -/
def findFiveRuns (leftOk : Bool) (cur : List Char) : List Char → List String
  | [] => if cur.length = 5 && leftOk then [String.mk cur] else []
  | c :: cs =>
    if isDigitChar c then
      findFiveRuns leftOk (cur ++ [c]) cs
    else
      (if cur.length = 5 && leftOk && !isWordChar c then [String.mk cur] else []) ++
        findFiveRuns (!isWordChar c) [] cs

/-- The fallback chunking loop of `extract_five_digit_accounts`: split a
digit string into consecutive 5-character chunks from the left and drop a
trailing remainder shorter than 5. -/
def chunksOfFive : List Char → List String
  | a :: b :: c :: d :: e :: rest => String.mk [a, b, c, d, e] :: chunksOfFive rest
  | _ => []

/-- `extract_five_digit_accounts` (send_invoices.py lines 50-71): `None`
yields `[]`; otherwise strip, return `[]` on empty; primary path is the
word-bounded 5-digit-run search; if it finds nothing, strip all non-digits
and chunk into 5-digit groups. -/
def extract_five_digit_accounts : Option String → List String
  | none => []
  | some v =>
    let s := pyStrip v.data
    if s = [] then []
    else
      let ms := findFiveRuns true [] s
      if ms ≠ [] then ms
      else chunksOfFive (s.filter isDigitChar)

/-- Separator class of `re.split(r"[;,\s]+", s)`. -/
def isSepChar (c : Char) : Bool :=
  c = ';' || c = ',' || isSpaceChar c

/-- `re.split(r"[;,\s]+", s)`: fields between maximal separator runs,
including an empty field at an edge that begins or ends with a separator.
`inSep = true` means we are inside a separator run (the field before it has
already been emitted); `cur` is the current field read so far. -/
def splitFieldsAux (inSep : Bool) (cur : List Char) : List Char → List (List Char)
  | [] => if inSep then [[]] else [cur]
  | c :: cs =>
    if inSep then
      if isSepChar c then splitFieldsAux true [] cs
      else splitFieldsAux false [c] cs
    else
      if isSepChar c then cur :: splitFieldsAux true [] cs
      else splitFieldsAux false (cur ++ [c]) cs

/-- `split_emails` (send_invoices.py lines 74-81): `None` yields `[]`;
strip, return `[]` on empty; split on runs of `;`, `,`, whitespace; strip
each part and keep the non-empty parts containing `@`.  Duplicates are not
removed. -/
def split_emails : Option String → List String
  | none => []
  | some v =>
    let s := pyStrip v.data
    if s = [] then []
    else
      (((splitFieldsAux false [] s).map pyStrip).filter
        (fun p => !p.isEmpty && p.contains '@')).map String.mk

/-- Python `str.lower()` (ASCII fragment, the one exercised by file names
and extensions). -/
def pyLower (l : List Char) : List Char :=
  l.map Char.toLower

/-- `name.lower().endswith(ext.lower())`. -/
def endsWithCI (ext name : List Char) : Bool :=
  (pyLower ext).isSuffixOf (pyLower name)

/-- Outcome of `os.listdir(invoices_dir)`: a successful listing of entry
names, a `FileNotFoundError` (directory absent), or any other `OSError`
(permission denied, not a directory, ...) carrying its message. -/
inductive DirListing where
  | ok (names : List String)
  | errNotFound
  | errOther (msg : String)

/-- Lexicographic code-point comparison of character lists; Python compares
strings this way (`sorted` in `find_invoice_path` uses it). -/
def lexLeB : List Char → List Char → Bool
  | [], _ => true
  | _ :: _, [] => false
  | a :: as, b :: bs => if a < b then true else if a = b then lexLeB as bs else false

/-- The order `sorted(os.listdir(...))` sorts entry names by. -/
def nameLe (a b : String) : Prop :=
  lexLeB a.data b.data = true

instance : DecidableRel nameLe :=
  fun a b => inferInstanceAs (Decidable (lexLeB a.data b.data = true))

/-- The selection predicate of the `for` loop in `find_invoice_path`
(send_invoices.py lines 91-97): the entry's lowered name ends with the
lowered extension, starts with `<account>_`, and `os.path.isfile` holds of
its full path (modelled on the name, `os.path.join` being injective in the
name for a fixed directory). -/
def invoiceEntryMatch (account ext : String) (isFile : String → Bool) (name : String) : Bool :=
  endsWithCI ext.data name.data && (account ++ "_").data.isPrefixOf name.data && isFile name

/-- `find_invoice_path` (send_invoices.py lines 84-98): a
`FileNotFoundError` from `os.listdir` is caught, logged and turned into
`None`; any other listing error propagates (`Except.error`); otherwise the
entries are sorted and the first entry matching `invoiceEntryMatch` is
returned (the full path it is joined into is injective in the name). -/
def find_invoice_path (account : String) (listing : DirListing) (ext : String)
    (isFile : String → Bool) : Except String (Option String) :=
  match listing with
  | .errNotFound => .ok none
  | .errOther m => .error m
  | .ok names =>
    .ok ((List.insertionSort nameLe names).find? (invoiceEntryMatch account ext isFile))

/-- Observable events of one `send_email_with_attachment` call: a transport
attempt (a fresh SMTP session), an exponential-backoff sleep, or the
post-success pacing sleep.  Durations are in seconds. -/
inductive SendEvent where
  | attempt (n : Nat)
  | backoffSleep (secs : ℚ)
  | pacingSleep (secs : ℚ)
deriving DecidableEq, Repr

/-- How one `send_email_with_attachment` call ends: normal return, or a
transport error propagating to the caller. -/
inductive SendResult where
  | returned
  | raised
deriving DecidableEq, Repr

/-- The retry loop of `send_email_with_attachment` (send_invoices.py lines
163-190).  `okAt n` tells whether attempt `n` (0-indexed) succeeds; `false`
means a transient transport error (`smtplib.SMTPException`,
`ConnectionError`, `OSError`).  `remaining` is the number of loop
iterations still to run (`max_retries - n` in the Python loop), so the
Python guard `attempt < max_retries - 1` is `remaining ≠ 0` after peeling
the current iteration.  On success the loop sleeps `delay_between_emails`
(rate-limit pacing) and returns; on failure it sleeps
`(2 ** attempt) * delay_between_emails` and retries, or re-raises on the
last iteration. -/
def sendLoop (okAt : Nat → Bool) (delay : ℚ) : Nat → Nat → List SendEvent × SendResult
  | 0, _ => ([], .returned)
  | remaining + 1, n =>
    if okAt n then
      ([.attempt n, .pacingSleep delay], .returned)
    else if remaining = 0 then
      ([.attempt n], .raised)
    else
      let r := sendLoop okAt delay remaining (n + 1)
      (.attempt n :: .backoffSleep ((2 : ℚ) ^ n * delay) :: r.1, r.2)

/-- `send_email_with_attachment` (send_invoices.py lines 137-190), reduced
to its observable retry behaviour: the attachment is read and the message
built before the loop, then `for attempt in range(max_retries)` runs the
retry loop — empty when `max_retries ≤ 0` (Python `range` of a
non-positive bound), in which case the function falls through and returns
normally without any attempt. -/
def send_email_with_attachment (okAt : Nat → Bool) (max_retries : Int)
    (delay_between_emails : ℚ) : List SendEvent × SendResult :=
  sendLoop okAt delay_between_emails max_retries.toNat 0

/-- One spreadsheet row, reduced to the three raw cell values the loop
reads (`get_cell_value` results): company, account cell, emails cell.  A
`none` models a missing cell (Python `None`). -/
structure Row where
  company : Option String
  rawAccount : Option String
  rawEmails : Option String

/-- The external world of one `process_invoices` run: the two existence
checks, the invoices-directory listing, the `os.path.isfile` predicate on
entry names, and the spreadsheet rows produced by `read_excel`. -/
structure Env where
  excelExists : Bool
  invoicesDirExists : Bool
  listing : DirListing
  isFile : String → Bool
  rows : List Row

/-- The summary dict returned by `process_invoices`
(send_invoices.py lines 311-316). -/
structure Summary where
  processed : Nat
  sent : Nat
  skipped : Nat
  missing_file : Nat
deriving DecidableEq, Repr

/-- Mutable state of the run loop: the four counters plus `calls`, the
model's bookkeeping of how many times `send_email_with_attachment` has
been invoked (the network transport reached). -/
structure RunState where
  processed : Nat
  sent : Nat
  skipped : Nat
  missing_file : Nat
  calls : Nat
deriving DecidableEq, Repr

/-- The inner `for account in accounts` loop of `process_invoices`
(send_invoices.py lines 266-307).  `okAt i` is the outcome of the `i`-th
`send_email_with_attachment` call of the whole run (`true` = returns,
`false` = raises after exhausting retries; the `except` at line 305 then
counts `skipped`).  Returns the state, the accumulated `row_sent`, and
`some msg` when an uncaught exception (a non-`FileNotFoundError` listing
error) aborts the run. -/
def processAccounts (env : Env) (okAt : Nat → Bool) (dryRun : Bool) (ext : String) :
    List String → RunState → Nat → RunState × Nat × Option String
  | [], st, rowSent => (st, rowSent, none)
  | account :: rest, st, rowSent =>
    match find_invoice_path account env.listing ext env.isFile with
    | .error m => (st, rowSent, some m)
    | .ok none =>
      processAccounts env okAt dryRun ext rest
        { st with missing_file := st.missing_file + 1 } rowSent
    | .ok (some _) =>
      if dryRun then
        processAccounts env okAt dryRun ext rest st rowSent
      else if okAt st.calls then
        processAccounts env okAt dryRun ext rest
          { st with calls := st.calls + 1 } (rowSent + 1)
      else
        processAccounts env okAt dryRun ext rest
          { st with calls := st.calls + 1, skipped := st.skipped + 1 } rowSent

/-- One iteration of the row loop of `process_invoices`
(send_invoices.py lines 246-309): increment `processed`, extract accounts
and recipients, count a row-level skip when either is empty, otherwise run
the account loop and add `row_sent` to `sent` (skipped when the account
loop aborts, as the Python `sent += row_sent` is never reached). -/
def processRow (env : Env) (okAt : Nat → Bool) (dryRun : Bool) (ext : String)
    (row : Row) (st : RunState) : RunState × Option String :=
  let st := { st with processed := st.processed + 1 }
  let accounts := extract_five_digit_accounts row.rawAccount
  let recipients := split_emails row.rawEmails
  if accounts.isEmpty then
    ({ st with skipped := st.skipped + 1 }, none)
  else if recipients.isEmpty then
    ({ st with skipped := st.skipped + 1 }, none)
  else
    match processAccounts env okAt dryRun ext accounts st 0 with
    | (st', rowSent, none) => ({ st' with sent := st'.sent + rowSent }, none)
    | (st', _, some m) => (st', some m)

/-- The row loop over the whole sheet. -/
def processRows (env : Env) (okAt : Nat → Bool) (dryRun : Bool) (ext : String) :
    List Row → RunState → RunState × Option String
  | [], st => (st, none)
  | row :: rest, st =>
    match processRow env okAt dryRun ext row st with
    | (st', none) => processRows env okAt dryRun ext rest st'
    | (st', some m) => (st', some m)

/-- `process_invoices` (send_invoices.py lines 214-316): raise
`FileNotFoundError` when the spreadsheet file or the invoices directory is
absent (before touching any row), else fold the row loop and return the
summary dict.  The second component is the model's count of
`send_email_with_attachment` invocations. -/
def process_invoices (env : Env) (okAt : Nat → Bool) (dryRun : Bool) (ext : String) :
    Except String Summary × Nat :=
  if !env.excelExists then
    (.error ("Excel file does not exist"), 0)
  else if !env.invoicesDirExists then
    (.error ("Invoices directory does not exist"), 0)
  else
    match processRows env okAt dryRun ext env.rows ⟨0, 0, 0, 0, 0⟩ with
    | (st, none) => (.ok ⟨st.processed, st.sent, st.skipped, st.missing_file⟩, st.calls)
    | (st, some m) => (.error m, st.calls)

/-- The outcome of the `i`-th dispatch of a run, derived from the dispatch
engine itself: `attemptOk i` is the transport oracle of that call. -/
def dispatchOk (attemptOk : Nat → Nat → Bool) (max_retries : Int) (delay : ℚ) :
    Nat → Bool :=
  fun i => decide ((send_email_with_attachment (attemptOk i) max_retries delay).2 = .returned)

/-- Python `s.replace(old, new)` restricted to a non-empty `old`: scan left
to right, replace each occurrence of `pat` and resume after it, never
rescanning inserted text.  `fuel` bounds the recursion; every call site
passes `fuel ≥ s.length`, which the scan never exhausts (each step consumes
one fuel and at least one character). -/
def replaceFuel (pat rep : List Char) : Nat → List Char → List Char
  | _, [] => []
  | 0, l => l
  | fuel + 1, c :: cs =>
    if pat.isPrefixOf (c :: cs) then
      rep ++ replaceFuel pat rep fuel ((c :: cs).drop pat.length)
    else
      c :: replaceFuel pat rep fuel cs

/-- Python `s.replace(old, new)` for the non-empty literal patterns used by
the renderer. -/
def pyReplace (s pat rep : List Char) : List Char :=
  replaceFuel pat rep s.length s

/-- The template rendering of `process_invoices` (send_invoices.py lines
276-277 and 286-287):
`template.replace("%ACCOUNT%", account).replace("%COMPANY%", company or "")`.
A missing company substitutes the empty string. -/
def renderTemplate (template account : String) (company : Option String) : String :=
  String.mk (pyReplace (pyReplace template.data ("%ACCOUNT%").data account.data)
    ("%COMPANY%").data (company.getD "").data)

/-- Modelled from the claim wording for comparison (not from the source):
the identifier extractor's primary path with runs "bounded on each side by
a non-digit character or the string edge" — i.e. `leftOk`/the right bound
test non-digit instead of non-word. -/
def claimFiveRunsDigitBounded (leftOk : Bool) (cur : List Char) : List Char → List String
  | [] => if cur.length = 5 && leftOk then [String.mk cur] else []
  | c :: cs =>
    if isDigitChar c then
      claimFiveRunsDigitBounded leftOk (cur ++ [c]) cs
    else
      (if cur.length = 5 && leftOk then [String.mk cur] else []) ++
        claimFiveRunsDigitBounded true [] cs

/-- Modelled from the claim wording for comparison (not from the source):
the extractor with the claim's non-digit-bounded primary path. -/
def claimExtractFiveDigitAccounts : Option String → List String
  | none => []
  | some v =>
    let s := pyStrip v.data
    if s = [] then []
    else
      let ms := claimFiveRunsDigitBounded true [] s
      if ms ≠ [] then ms
      else chunksOfFive (s.filter isDigitChar)

/-- Modelled from the claim wording for comparison (not from the source):
the file matcher as claimed, selecting the first sorted entry whose name
ends with the extension case-insensitively and starts with
`<identifier>_`, with no regular-file check. -/
def claimFindInvoicePath (account : String) (listing : DirListing) (ext : String) :
    Except String (Option String) :=
  match listing with
  | .errNotFound => .ok none
  | .errOther m => .error m
  | .ok names =>
    .ok ((List.insertionSort nameLe names).find?
      (fun name => endsWithCI ext.data name.data && (account ++ "_").data.isPrefixOf name.data))

/-- Classifier: is the event a transport attempt? -/
def isAttemptEvent : SendEvent → Bool
  | .attempt _ => true
  | _ => false

/-- Classifier: is the event a backoff sleep? -/
def isBackoffEvent : SendEvent → Bool
  | .backoffSleep _ => true
  | _ => false

/-- Classifier: is the event a pacing sleep? -/
def isPacingEvent : SendEvent → Bool
  | .pacingSleep _ => true
  | _ => false

/-- The events of failed attempt `m` in a run whose last attempt index is
`stop - 1`: the attempt itself, followed by a backoff sleep of
`2 ^ m * delay` seconds exactly when `m` is not the last attempt. -/
def failStep (delay : ℚ) (stop m : Nat) : List SendEvent :=
  .attempt m :: (if m + 1 < stop then [.backoffSleep ((2 : ℚ) ^ m * delay)] else [])

theorem sendLoop_fail_unfold (okAt : Nat → Bool) (delay : ℚ) (r n : Nat)
    (hf : okAt n = false) (hr : r ≠ 0) :
    sendLoop okAt delay (r + 1) n =
      (.attempt n :: .backoffSleep ((2 : ℚ) ^ n * delay) :: (sendLoop okAt delay r (n + 1)).1,
        (sendLoop okAt delay r (n + 1)).2) := by
  rw [sendLoop.eq_2]
  simp [hf, hr]

theorem sendLoop_allFail (okAt : Nat → Bool) (delay : ℚ) (h : ∀ n, okAt n = false) :
    ∀ r n, 1 ≤ r →
      sendLoop okAt delay r n = ((List.range' n r).flatMap (failStep delay (n + r)), .raised)
  | 0, _, hr => absurd hr (by omega)
  | 1, n, _ => by
    rw [sendLoop.eq_2]
    simp [h n, List.range'_succ, failStep]
  | r + 2, n, _ => by
    have ih := sendLoop_allFail okAt delay h (r + 1) (n + 1) (by omega)
    have hstop : n + 1 + (r + 1) = n + (r + 2) := by omega
    rw [hstop] at ih
    rw [sendLoop_fail_unfold okAt delay (r + 1) n (h n) (by omega), ih]
    have hlt : n + 1 < n + (r + 2) := by omega
    simp [List.range'_succ, List.flatMap_cons, failStep, hlt]

theorem sendLoop_success (okAt : Nat → Bool) (delay : ℚ) (k : Nat) (hk : okAt k = true)
    (hprev : ∀ m, m < k → okAt m = false) :
    ∀ r n, n ≤ k → k < n + r →
      sendLoop okAt delay r n =
        ((List.range' n (k - n)).flatMap
            (fun m => [.attempt m, .backoffSleep ((2 : ℚ) ^ m * delay)]) ++
          [.attempt k, .pacingSleep delay], .returned)
  | 0, n, hn, hr => absurd hr (by omega)
  | r + 1, n, hn, hr => by
    rcases Nat.eq_or_lt_of_le hn with heq | hlt
    · subst heq
      rw [sendLoop.eq_2]
      simp [hk]
    · have ih := sendLoop_success okAt delay k hk hprev r (n + 1) (by omega) (by omega)
      rw [sendLoop_fail_unfold okAt delay r n (hprev n hlt) (by omega), ih]
      have hkn : k - n = (k - (n + 1)) + 1 := by omega
      rw [hkn, List.range'_succ, List.flatMap_cons]
      simp

theorem countP_flatMap_failStep (delay : ℚ) (stop : Nat) :
    ∀ l : List Nat,
      (l.flatMap (failStep delay stop)).countP isAttemptEvent = l.length ∧
      (l.flatMap (failStep delay stop)).countP isPacingEvent = 0
  | [] => by simp
  | m :: l => by
    have ih := countP_flatMap_failStep delay stop l
    by_cases hm : m + 1 < stop
    all_goals
      simp [failStep, hm, List.countP_cons, isAttemptEvent, isPacingEvent, ih.1, ih.2,
        Nat.add_comm]

theorem countP_flatMap_backoffPairs (delay : ℚ) :
    ∀ l : List Nat,
      ((l.flatMap (fun m => [SendEvent.attempt m,
          SendEvent.backoffSleep ((2 : ℚ) ^ m * delay)])).countP isBackoffEvent = l.length) ∧
      ((l.flatMap (fun m => [SendEvent.attempt m,
          SendEvent.backoffSleep ((2 : ℚ) ^ m * delay)])).countP isPacingEvent = 0)
  | [] => by simp
  | m :: l => by
    have ih := countP_flatMap_backoffPairs delay l
    simp [List.countP_cons, isBackoffEvent, isPacingEvent, ih.1, ih.2, Nat.add_comm]

/-- C1: with `max_retries ≥ 1`, if every attempt fails with a transient
transport error, the dispatch engine makes exactly `max_retries` attempts,
sleeps `2 ^ n * delay_between_emails` seconds after each failed attempt
`n` with `n + 1 < max_retries`, performs no pacing sleep, and the error
propagates; if attempts `0..k-1` fail and attempt `k < max_retries`
succeeds, the trace is `k` failed attempts each followed by its backoff
sleep, then attempt `k` and a single pacing sleep of
`delay_between_emails` seconds, and the call returns normally. -/
theorem c1_dispatch_retry_contract (okAt : Nat → Bool) (mr : Int) (delay : ℚ)
    (hmr : 1 ≤ mr) :
    ((∀ n, okAt n = false) →
      send_email_with_attachment okAt mr delay =
          ((List.range mr.toNat).flatMap (failStep delay mr.toNat), .raised) ∧
        ((List.range mr.toNat).flatMap (failStep delay mr.toNat)).countP isAttemptEvent
          = mr.toNat ∧
        ((List.range mr.toNat).flatMap (failStep delay mr.toNat)).countP isPacingEvent
          = 0) ∧
    (∀ k : Nat, (k : Int) < mr → okAt k = true → (∀ m, m < k → okAt m = false) →
      send_email_with_attachment okAt mr delay =
          ((List.range k).flatMap
              (fun m => [SendEvent.attempt m, SendEvent.backoffSleep ((2 : ℚ) ^ m * delay)]) ++
            [.attempt k, .pacingSleep delay], .returned) ∧
        ((List.range k).flatMap
            (fun m => [SendEvent.attempt m,
              SendEvent.backoffSleep ((2 : ℚ) ^ m * delay)])).countP isBackoffEvent = k ∧
        (((List.range k).flatMap
              (fun m => [SendEvent.attempt m,
                SendEvent.backoffSleep ((2 : ℚ) ^ m * delay)]) ++
            [SendEvent.attempt k, SendEvent.pacingSleep delay]).countP isPacingEvent = 1)) := by
  constructor
  · intro hfail
    have h1 : 1 ≤ mr.toNat := by omega
    have ht := sendLoop_allFail okAt delay hfail mr.toNat 0 h1
    have hc := countP_flatMap_failStep delay mr.toNat (List.range' 0 mr.toNat)
    refine ⟨ ?_, ?_, ?_⟩
    · simpa [send_email_with_attachment, List.range_eq_range'] using ht
    · simpa [List.range_eq_range'] using hc.1
    · simpa [List.range_eq_range'] using hc.2
  · intro k hklt hk hprev
    have hkr : k < 0 + mr.toNat := by omega
    have ht := sendLoop_success okAt delay k hk hprev mr.toNat 0 (Nat.zero_le k) hkr
    have hc := countP_flatMap_backoffPairs delay (List.range' 0 k)
    refine ⟨ ?_, ?_, ?_⟩
    · simpa [send_email_with_attachment, List.range_eq_range'] using ht
    · simpa [List.range_eq_range'] using hc.1
    · rw [List.range_eq_range', List.countP_append, hc.2]
      rfl

/-- Witness for C1 at `max_retries = 3`, `delay = 1`: all-fail and
success-at-attempt-1 instantiations. -/
theorem c1_dispatch_retry_contract_witness :
    send_email_with_attachment (fun _ => false) 3 1 =
        ((List.range (Int.toNat 3)).flatMap (failStep 1 (Int.toNat 3)), .raised) ∧
      send_email_with_attachment (fun n => decide (n = 1)) 3 1 =
        ((List.range 1).flatMap
            (fun m => [SendEvent.attempt m, SendEvent.backoffSleep ((2 : ℚ) ^ m * 1)]) ++
          [SendEvent.attempt 1, SendEvent.pacingSleep 1], .returned) :=
  ⟨((c1_dispatch_retry_contract (fun _ => false) 3 1 (by decide)).1
      (fun _ => rfl)).1,
    ((c1_dispatch_retry_contract (fun n => decide (n = 1)) 3 1 (by decide)).2 1 (by decide)
      (by decide) (by intro m hm; interval_cases m; rfl)).1⟩

/-- C2: if the spreadsheet file or the invoices directory is absent,
`process_invoices` raises before any row is processed: the result is an
error with zero dispatch calls, no summary at all, and it does not depend
on the rows, the transport, or the mode. -/
theorem c2_config_error_aborts (env : Env) (okAt : Nat → Bool) (dryRun : Bool) (ext : String)
    (h : env.excelExists = false ∨ env.invoicesDirExists = false) :
    (∃ msg, process_invoices env okAt dryRun ext = (.error msg, 0)) ∧
    (∀ rows' okAt' dryRun',
      process_invoices { env with rows := rows' } okAt' dryRun' ext =
        process_invoices env okAt dryRun ext) := by
  cases hex : env.excelExists with
  | false =>
    exact ⟨⟨"Excel file does not exist", by simp [process_invoices, hex]⟩,
      fun rows' okAt' dryRun' => by simp [process_invoices, hex]⟩
  | true =>
    have hdir : env.invoicesDirExists = false := by
      rcases h with h | h
      · rw [hex] at h; cases h
      · exact h
    exact ⟨⟨"Invoices directory does not exist", by simp [process_invoices, hex, hdir]⟩,
      fun rows' okAt' dryRun' => by simp [process_invoices, hex, hdir]⟩

/-- Environment for the C2 witness: the spreadsheet file is absent. -/
def envC2 : Env :=
  { excelExists := false, invoicesDirExists := true, listing := .ok [],
    isFile := fun _ => false,
    rows := [{ company := none, rawAccount := some ("12345"), rawEmails := some ("a@x.com") }] }

/-- Witness for C2 on a concrete environment with an absent spreadsheet. -/
theorem c2_config_error_aborts_witness :
    (∃ msg, process_invoices envC2 (fun _ => true) false (".pdf") = (.error msg, 0)) ∧
    (∀ rows' okAt' dryRun',
      process_invoices { envC2 with rows := rows' } okAt' dryRun' (".pdf") =
        process_invoices envC2 (fun _ => true) false (".pdf")) :=
  c2_config_error_aborts envC2 (fun _ => true) false (".pdf") (Or.inl rfl)

theorem processAccounts_processed (env : Env) (okAt : Nat → Bool) (dryRun : Bool)
    (ext : String) :
    ∀ accounts st rs,
      (processAccounts env okAt dryRun ext accounts st rs).1.processed = st.processed
  | [], _, _ => rfl
  | a :: rest, st, rs => by
    have ih := fun st' rs' => processAccounts_processed env okAt dryRun ext rest st' rs'
    cases hf : find_invoice_path a env.listing ext env.isFile with
    | error m => simp [processAccounts, hf]
    | ok o =>
      cases o with
      | none => simp [processAccounts, hf, ih]
      | some p =>
        rcases Bool.eq_false_or_eq_true dryRun with hd | hd
        all_goals rw [hd] at ih
        all_goals by_cases hok : okAt st.calls
        all_goals simp [processAccounts, hf, hd, hok, ih]

theorem processRow_processed (env : Env) (okAt : Nat → Bool) (dryRun : Bool) (ext : String)
    (row : Row) (st : RunState) :
    (processRow env okAt dryRun ext row st).1.processed = st.processed + 1 := by
  rcases hpa : processAccounts env okAt dryRun ext (extract_five_digit_accounts row.rawAccount)
      { st with processed := st.processed + 1 } 0 with ⟨st', rowSent, err⟩
  have hp := processAccounts_processed env okAt dryRun ext
      (extract_five_digit_accounts row.rawAccount) { st with processed := st.processed + 1 } 0
  rw [hpa] at hp
  simp only [] at hp
  by_cases ha : (extract_five_digit_accounts row.rawAccount).isEmpty
  · simp [processRow, ha]
  · by_cases hr : (split_emails row.rawEmails).isEmpty
    · simp [processRow, ha, hr]
    · cases err with
      | none => simp [processRow, ha, hr, hpa, hp]
      | some m => simp [processRow, ha, hr, hpa, hp]

theorem processRows_processed (env : Env) (okAt : Nat → Bool) (dryRun : Bool) (ext : String) :
    ∀ rows st st', processRows env okAt dryRun ext rows st = (st', none) →
      st'.processed = st.processed + rows.length
  | [], st, st', h => by
    have h1 : st = st' := congrArg Prod.fst h
    rw [← h1]
    simp
  | row :: rest, st, st', h => by
    rcases hpr : processRow env okAt dryRun ext row st with ⟨st1, err⟩
    have hone := processRow_processed env okAt dryRun ext row st
    rw [hpr] at hone
    simp only [] at hone
    cases err with
    | some m => simp [processRows, hpr] at h
    | none =>
      have hrec : processRows env okAt dryRun ext rest st1 = (st', none) := by
        simpa [processRows, hpr] using h
      have hlen := processRows_processed env okAt dryRun ext rest st1 st' hrec
      simp only [List.length_cons]
      omega

theorem process_invoices_processed (env : Env) (okAt : Nat → Bool) (dryRun : Bool)
    (ext : String) (s : Summary) (c : Nat)
    (h : process_invoices env okAt dryRun ext = (.ok s, c)) :
    s.processed = env.rows.length := by
  by_cases hex : env.excelExists
  · by_cases hdir : env.invoicesDirExists
    · rcases hpr : processRows env okAt dryRun ext env.rows ⟨0, 0, 0, 0, 0⟩ with ⟨st, err⟩
      cases err with
      | none =>
        have hlen := processRows_processed env okAt dryRun ext env.rows ⟨0, 0, 0, 0, 0⟩ st hpr
        have hcomp : process_invoices env okAt dryRun ext =
            (.ok ⟨st.processed, st.sent, st.skipped, st.missing_file⟩, st.calls) := by
          simp [process_invoices, hex, hdir, hpr]
        rw [hcomp] at h
        have hs : (⟨st.processed, st.sent, st.skipped, st.missing_file⟩ : Summary) = s := by
          simpa using congrArg Prod.fst h
        rw [← hs]
        simpa using hlen
      | some m => simp [process_invoices, hex, hdir, hpr] at h
    · simp [process_invoices, hex, hdir] at h
  · simp [process_invoices, hex] at h

/-- C3: a live-mode row with two extracted identifiers, a non-empty
recipient set, and exactly one identifier matched to a file increments
`processed` by 1, `missing_file` by 1, and exactly one of `sent` (dispatch
returned) or `skipped` (dispatch raised after exhausting retries) by 1;
and in every run that returns a summary, `processed` equals the number of
rows iterated. -/
theorem c3_row_counters (env : Env) (okAt : Nat → Bool) (ext : String) (row : Row)
    (st : RunState) (a b p : String)
    (hacc : extract_five_digit_accounts row.rawAccount = [a, b])
    (hrec : split_emails row.rawEmails ≠ [])
    (hone : (find_invoice_path a env.listing ext env.isFile = .ok (some p) ∧
        find_invoice_path b env.listing ext env.isFile = .ok none) ∨
      (find_invoice_path a env.listing ext env.isFile = .ok none ∧
        find_invoice_path b env.listing ext env.isFile = .ok (some p))) :
    (processRow env okAt false ext row st =
      (if okAt st.calls then
        { processed := st.processed + 1, sent := st.sent + 1, skipped := st.skipped,
          missing_file := st.missing_file + 1, calls := st.calls + 1 }
      else
        { processed := st.processed + 1, sent := st.sent, skipped := st.skipped + 1,
          missing_file := st.missing_file + 1, calls := st.calls + 1 }, none)) ∧
    (∀ env' okAt' dryRun' ext' s c,
      process_invoices env' okAt' dryRun' ext' = (.ok s, c) → s.processed = env'.rows.length) := by
  constructor
  · rcases hone with ⟨h1, h2⟩ | ⟨h1, h2⟩
    all_goals by_cases hok : okAt st.calls
    all_goals simp [processRow, hacc, List.isEmpty_iff, hrec, processAccounts, h1, h2, hok]
  · exact fun env' okAt' dryRun' ext' s c h =>
      process_invoices_processed env' okAt' dryRun' ext' s c h

/-- The row of the C3 witness: two identifiers, one recipient. -/
def rowC3 : Row :=
  { company := none, rawAccount := some ("12345 67890"), rawEmails := some ("a@x.com") }

/-- Environment for the C3 witness: one row with two identifiers, of which
only `12345` has a matching invoice. -/
def envC3 : Env :=
  { excelExists := true, invoicesDirExists := true, listing := .ok ["12345_inv.pdf"],
    isFile := fun _ => true, rows := [rowC3] }

/-- Witness for C3 on a concrete row with accounts `12345` and `67890`. -/
theorem c3_row_counters_witness :
    (processRow envC3 (fun _ => true) false (".pdf") rowC3 ⟨0, 0, 0, 0, 0⟩ =
      (if (fun _ : Nat => true) (RunState.calls ⟨0, 0, 0, 0, 0⟩) then
        { processed := 0 + 1, sent := 0 + 1, skipped := 0,
          missing_file := 0 + 1, calls := 0 + 1 }
      else
        { processed := 0 + 1, sent := 0, skipped := 0 + 1,
          missing_file := 0 + 1, calls := 0 + 1 }, none)) ∧
    (∀ env' okAt' dryRun' ext' s c,
      process_invoices env' okAt' dryRun' ext' = (.ok s, c) → s.processed = env'.rows.length) :=
  c3_row_counters envC3 (fun _ => true) (".pdf") rowC3 ⟨0, 0, 0, 0, 0⟩
    ("12345") ("67890") ("12345_inv.pdf") (by decide) (by decide) (Or.inl ⟨rfl, rfl⟩)

/-- The state after the matched-invoice arm of the account loop: unchanged
in dry-run; in live mode the dispatch call is counted and a raised send
increments `skipped`. -/
def liveStep (okAt : Nat → Bool) (d : Bool) (st : RunState) : RunState :=
  if d then st
  else if okAt st.calls then { st with calls := st.calls + 1 }
  else { st with calls := st.calls + 1, skipped := st.skipped + 1 }

/-- The `row_sent` value after the matched-invoice arm of the account loop. -/
def liveStepRs (okAt : Nat → Bool) (d : Bool) (st : RunState) (rs : Nat) : Nat :=
  if d then rs else if okAt st.calls then rs + 1 else rs

theorem liveStep_missing (okAt : Nat → Bool) (d : Bool) (st : RunState) :
    (liveStep okAt d st).missing_file = st.missing_file := by
  unfold liveStep
  split_ifs
  all_goals rfl

theorem liveStep_processed (okAt : Nat → Bool) (d : Bool) (st : RunState) :
    (liveStep okAt d st).processed = st.processed := by
  unfold liveStep
  split_ifs
  all_goals rfl

theorem processAccounts_step_some (env : Env) (okAt : Nat → Bool) (d : Bool) (ext : String)
    (a : String) (rest : List String) (st : RunState) (rs : Nat) (p : String)
    (hf : find_invoice_path a env.listing ext env.isFile = .ok (some p)) :
    processAccounts env okAt d ext (a :: rest) st rs =
      processAccounts env okAt d ext rest (liveStep okAt d st) (liveStepRs okAt d st rs) := by
  rcases Bool.eq_false_or_eq_true d with hd | hd
  all_goals by_cases hok : okAt st.calls
  all_goals simp [processAccounts, liveStep, liveStepRs, hf, hd, hok]

theorem processAccounts_dry (env : Env) (okAt : Nat → Bool) (ext : String) :
    ∀ accounts st rs,
      (processAccounts env okAt true ext accounts st rs).1.sent = st.sent ∧
      (processAccounts env okAt true ext accounts st rs).1.skipped = st.skipped ∧
      (processAccounts env okAt true ext accounts st rs).1.calls = st.calls ∧
      (processAccounts env okAt true ext accounts st rs).2.1 = rs
  | [], _, _ => ⟨rfl, rfl, rfl, rfl⟩
  | a :: rest, st, rs => by
    have ih := fun st' rs' => processAccounts_dry env okAt ext rest st' rs'
    cases hf : find_invoice_path a env.listing ext env.isFile with
    | error m => simp [processAccounts, hf]
    | ok o =>
      cases o with
      | none => simp [processAccounts, hf, ih]
      | some p => simp [processAccounts, hf, ih]

theorem processAccounts_allOk_skipped (env : Env) (ext : String) :
    ∀ accounts st rs,
      (processAccounts env (fun _ => true) false ext accounts st rs).1.skipped = st.skipped
  | [], _, _ => rfl
  | a :: rest, st, rs => by
    have ih := fun st' rs' => processAccounts_allOk_skipped env ext rest st' rs'
    cases hf : find_invoice_path a env.listing ext env.isFile with
    | error m => simp [processAccounts, hf]
    | ok o =>
      cases o with
      | none => simp [processAccounts, hf, ih]
      | some p => simp [processAccounts, hf, ih]

theorem processAccounts_compare (env : Env) (ext : String) :
    ∀ accounts (okAt₁ okAt₂ : Nat → Bool) (d₁ d₂ : Bool) st₁ st₂ rs₁ rs₂,
      (processAccounts env okAt₁ d₁ ext accounts st₁ rs₁).2.2 =
        (processAccounts env okAt₂ d₂ ext accounts st₂ rs₂).2.2 ∧
      (st₁.missing_file = st₂.missing_file →
        (processAccounts env okAt₁ d₁ ext accounts st₁ rs₁).1.missing_file =
          (processAccounts env okAt₂ d₂ ext accounts st₂ rs₂).1.missing_file)
  | [], _, _, _, _, _, _, _, _ => ⟨rfl, fun h => h⟩
  | a :: rest, okAt₁, okAt₂, d₁, d₂, st₁, st₂, rs₁, rs₂ => by
    cases hf : find_invoice_path a env.listing ext env.isFile with
    | error m => simp [processAccounts, hf]
    | ok o =>
      cases o with
      | none =>
        have ih := processAccounts_compare env ext rest okAt₁ okAt₂ d₁ d₂
          { st₁ with missing_file := st₁.missing_file + 1 }
          { st₂ with missing_file := st₂.missing_file + 1 } rs₁ rs₂
        simp only [processAccounts, hf]
        exact ⟨ih.1, fun h => ih.2 (by simp [h])⟩
      | some p =>
        rw [processAccounts_step_some env okAt₁ d₁ ext a rest st₁ rs₁ p hf,
          processAccounts_step_some env okAt₂ d₂ ext a rest st₂ rs₂ p hf]
        have ih := processAccounts_compare env ext rest okAt₁ okAt₂ d₁ d₂
          (liveStep okAt₁ d₁ st₁) (liveStep okAt₂ d₂ st₂)
          (liveStepRs okAt₁ d₁ st₁ rs₁) (liveStepRs okAt₂ d₂ st₂ rs₂)
        exact ⟨ih.1, fun h => ih.2 (by rw [liveStep_missing, liveStep_missing, h])⟩

theorem processRow_compare (env : Env) (ext : String) (row : Row)
    (okAt₁ okAt₂ : Nat → Bool) (d₁ d₂ : Bool) (st₁ st₂ : RunState) :
    (processRow env okAt₁ d₁ ext row st₁).2 = (processRow env okAt₂ d₂ ext row st₂).2 ∧
    (st₁.missing_file = st₂.missing_file →
      (processRow env okAt₁ d₁ ext row st₁).1.missing_file =
        (processRow env okAt₂ d₂ ext row st₂).1.missing_file) := by
  by_cases ha : (extract_five_digit_accounts row.rawAccount).isEmpty
  · simp [processRow, ha]
  · by_cases hr : (split_emails row.rawEmails).isEmpty
    · simp [processRow, ha, hr]
    · rcases hpa₁ : processAccounts env okAt₁ d₁ ext (extract_five_digit_accounts row.rawAccount)
          { st₁ with processed := st₁.processed + 1 } 0 with ⟨st₁', rs₁', e₁⟩
      rcases hpa₂ : processAccounts env okAt₂ d₂ ext (extract_five_digit_accounts row.rawAccount)
          { st₂ with processed := st₂.processed + 1 } 0 with ⟨st₂', rs₂', e₂⟩
      have hc := processAccounts_compare env ext (extract_five_digit_accounts row.rawAccount)
        okAt₁ okAt₂ d₁ d₂ { st₁ with processed := st₁.processed + 1 }
        { st₂ with processed := st₂.processed + 1 } 0 0
      rw [hpa₁, hpa₂] at hc
      simp only [] at hc
      cases e₁ with
      | none =>
        cases e₂ with
        | some m => exact absurd hc.1 (by simp)
        | none =>
          constructor
          · simp [processRow, ha, hr, hpa₁, hpa₂]
          · intro h
            have hmm := hc.2 (by simpa using h)
            simp [processRow, ha, hr, hpa₁, hpa₂, hmm]
      | some m =>
        cases e₂ with
        | none => exact absurd hc.1 (by simp)
        | some m₂ =>
          have hme : m = m₂ := by simpa using hc.1
          constructor
          · simp [processRow, ha, hr, hpa₁, hpa₂, hme]
          · intro h
            have hmm := hc.2 (by simpa using h)
            simp [processRow, ha, hr, hpa₁, hpa₂, hmm]

theorem processRow_dry (env : Env) (okAt : Nat → Bool) (ext : String) (row : Row)
    (st : RunState) :
    (processRow env okAt true ext row st).1.sent = st.sent ∧
    (processRow env okAt true ext row st).1.calls = st.calls := by
  by_cases ha : (extract_five_digit_accounts row.rawAccount).isEmpty
  · simp [processRow, ha]
  · by_cases hr : (split_emails row.rawEmails).isEmpty
    · simp [processRow, ha, hr]
    · rcases hpa : processAccounts env okAt true ext (extract_five_digit_accounts row.rawAccount)
          { st with processed := st.processed + 1 } 0 with ⟨st', rs', e⟩
      have hd := processAccounts_dry env okAt ext (extract_five_digit_accounts row.rawAccount)
        { st with processed := st.processed + 1 } 0
      rw [hpa] at hd
      simp only [] at hd
      cases e with
      | none => simp [processRow, ha, hr, hpa, hd.1, hd.2.1, hd.2.2.1, hd.2.2.2]
      | some m => simp [processRow, ha, hr, hpa, hd.1, hd.2.2.1]

theorem processRow_skipped_cmp (env : Env) (ext : String) (row : Row) (okAt : Nat → Bool)
    (st₁ st₂ : RunState) (h : st₁.skipped = st₂.skipped) :
    (processRow env okAt true ext row st₁).1.skipped =
      (processRow env (fun _ => true) false ext row st₂).1.skipped := by
  by_cases ha : (extract_five_digit_accounts row.rawAccount).isEmpty
  · simp [processRow, ha, h]
  · by_cases hr : (split_emails row.rawEmails).isEmpty
    · simp [processRow, ha, hr, h]
    · rcases hpa₁ : processAccounts env okAt true ext (extract_five_digit_accounts row.rawAccount)
          { st₁ with processed := st₁.processed + 1 } 0 with ⟨st₁', rs₁', e₁⟩
      rcases hpa₂ : processAccounts env (fun _ => true) false ext
          (extract_five_digit_accounts row.rawAccount)
          { st₂ with processed := st₂.processed + 1 } 0 with ⟨st₂', rs₂', e₂⟩
      have h₁ := processAccounts_dry env okAt ext (extract_five_digit_accounts row.rawAccount)
        { st₁ with processed := st₁.processed + 1 } 0
      rw [hpa₁] at h₁
      simp only [] at h₁
      have h₂ := processAccounts_allOk_skipped env ext (extract_five_digit_accounts row.rawAccount)
        { st₂ with processed := st₂.processed + 1 } 0
      rw [hpa₂] at h₂
      simp only [] at h₂
      cases e₁ with
      | none =>
        cases e₂ with
        | none =>
          simp [processRow, ha, hr, hpa₁, hpa₂]
          omega
        | some m =>
          simp [processRow, ha, hr, hpa₁, hpa₂]
          omega
      | some m =>
        cases e₂ with
        | none =>
          simp [processRow, ha, hr, hpa₁, hpa₂]
          omega
        | some m₂ =>
          simp [processRow, ha, hr, hpa₁, hpa₂]
          omega

theorem processRows_compare (env : Env) (ext : String) :
    ∀ rows (okAt₁ okAt₂ : Nat → Bool) (d₁ d₂ : Bool) st₁ st₂,
      (processRows env okAt₁ d₁ ext rows st₁).2 = (processRows env okAt₂ d₂ ext rows st₂).2 ∧
      (st₁.missing_file = st₂.missing_file →
        (processRows env okAt₁ d₁ ext rows st₁).1.missing_file =
          (processRows env okAt₂ d₂ ext rows st₂).1.missing_file) ∧
      (st₁.processed = st₂.processed →
        (processRows env okAt₁ d₁ ext rows st₁).1.processed =
          (processRows env okAt₂ d₂ ext rows st₂).1.processed)
  | [], _, _, _, _, _, _ => ⟨rfl, fun h => h, fun h => h⟩
  | row :: rest, okAt₁, okAt₂, d₁, d₂, st₁, st₂ => by
    rcases hp₁ : processRow env okAt₁ d₁ ext row st₁ with ⟨st₁', e₁⟩
    rcases hp₂ : processRow env okAt₂ d₂ ext row st₂ with ⟨st₂', e₂⟩
    have hrc := processRow_compare env ext row okAt₁ okAt₂ d₁ d₂ st₁ st₂
    rw [hp₁, hp₂] at hrc
    simp only [] at hrc
    have hpr₁ := processRow_processed env okAt₁ d₁ ext row st₁
    rw [hp₁] at hpr₁
    simp only [] at hpr₁
    have hpr₂ := processRow_processed env okAt₂ d₂ ext row st₂
    rw [hp₂] at hpr₂
    simp only [] at hpr₂
    cases e₁ with
    | none =>
      cases e₂ with
      | some m => exact absurd hrc.1 (by simp)
      | none =>
        have ih := processRows_compare env ext rest okAt₁ okAt₂ d₁ d₂ st₁' st₂'
        refine ⟨?_, ?_, ?_⟩
        · simp [processRows, hp₁, hp₂, ih.1]
        · intro h
          simpa [processRows, hp₁, hp₂] using ih.2.1 (hrc.2 h)
        · intro h
          simpa [processRows, hp₁, hp₂] using ih.2.2 (by omega)
    | some m =>
      cases e₂ with
      | none => exact absurd hrc.1 (by simp)
      | some m₂ =>
        have hme : m = m₂ := by simpa using hrc.1
        refine ⟨?_, ?_, ?_⟩
        · simp [processRows, hp₁, hp₂, hme]
        · intro h
          simpa [processRows, hp₁, hp₂] using hrc.2 h
        · intro h
          simp [processRows, hp₁, hp₂]
          omega

theorem processRows_dry (env : Env) (okAt : Nat → Bool) (ext : String) :
    ∀ rows st, (processRows env okAt true ext rows st).1.sent = st.sent ∧
      (processRows env okAt true ext rows st).1.calls = st.calls
  | [], _ => ⟨rfl, rfl⟩
  | row :: rest, st => by
    rcases hp : processRow env okAt true ext row st with ⟨st', e⟩
    have hd := processRow_dry env okAt ext row st
    rw [hp] at hd
    simp only [] at hd
    cases e with
    | none =>
      have ih := processRows_dry env okAt ext rest st'
      exact ⟨by simp [processRows, hp, ih.1, hd.1], by simp [processRows, hp, ih.2, hd.2]⟩
    | some m =>
      exact ⟨by simp [processRows, hp, hd.1], by simp [processRows, hp, hd.2]⟩

theorem processRows_skipped_cmp (env : Env) (ext : String) (okAt : Nat → Bool) :
    ∀ rows st₁ st₂, st₁.skipped = st₂.skipped →
      (processRows env okAt true ext rows st₁).1.skipped =
        (processRows env (fun _ => true) false ext rows st₂).1.skipped
  | [], _, _, h => h
  | row :: rest, st₁, st₂, h => by
    rcases hp₁ : processRow env okAt true ext row st₁ with ⟨st₁', e₁⟩
    rcases hp₂ : processRow env (fun _ => true) false ext row st₂ with ⟨st₂', e₂⟩
    have hsk := processRow_skipped_cmp env ext row okAt st₁ st₂ h
    rw [hp₁, hp₂] at hsk
    simp only [] at hsk
    have hrc := processRow_compare env ext row okAt (fun _ => true) true false st₁ st₂
    rw [hp₁, hp₂] at hrc
    simp only [] at hrc
    cases e₁ with
    | none =>
      cases e₂ with
      | some m => exact absurd hrc.1 (by simp)
      | none =>
        have ih := processRows_skipped_cmp env ext okAt rest st₁' st₂' hsk
        simpa [processRows, hp₁, hp₂] using ih
    | some m =>
      cases e₂ with
      | none => exact absurd hrc.1 (by simp)
      | some m₂ => simpa [processRows, hp₁, hp₂] using hsk

/-- Environment of the C4 counterexample and witness: one row whose single
identifier `12345` has a matching invoice file. -/
def envC4 : Env :=
  { excelExists := true, invoicesDirExists := true, listing := .ok ["12345_x.pdf"],
    isFile := fun _ => true,
    rows := [{ company := none, rawAccount := some ("12345"),
               rawEmails := some ("a@x.com") }] }

/-- C4 counterexample: the claim says the `skipped` counter behaves in
dry-run as in live mode, but on a run whose live dispatch raises after
exhausting retries, live mode counts `skipped = 1` while the dry run of
the same input counts `skipped = 0` (the dispatch never happens, so its
failure cannot be counted). -/
theorem c4_skipped_differs_counterexample :
    process_invoices envC4 (fun _ => false) false (".pdf") = (.ok ⟨1, 0, 1, 0⟩, 1) ∧
    process_invoices envC4 (fun _ => false) true (".pdf") = (.ok ⟨1, 0, 0, 0⟩, 0) :=
  ⟨rfl, rfl⟩

/-- C4 amended: a dry run never invokes the dispatch engine (zero dispatch
calls) and returns `sent = 0`; its `processed` and `missing_file` counters
equal those of a live run of the same input under any transport behaviour,
and its `skipped` counter equals that of a live run in which every
dispatch succeeds (in a live run with failing dispatches, `skipped`
additionally counts delivery failures). -/
theorem c4_dry_run_isolation (env : Env) (okAt okAt' : Nat → Bool) (ext : String) :
    (process_invoices env okAt true ext).2 = 0 ∧
    (∀ s, (process_invoices env okAt true ext).1 = .ok s → s.sent = 0) ∧
    (∀ s s', (process_invoices env okAt true ext).1 = .ok s →
      (process_invoices env okAt' false ext).1 = .ok s' →
      s.processed = s'.processed ∧ s.missing_file = s'.missing_file) ∧
    (∀ s s', (process_invoices env okAt true ext).1 = .ok s →
      (process_invoices env (fun _ => true) false ext).1 = .ok s' →
      s.skipped = s'.skipped) := by
  by_cases hex : env.excelExists
  · by_cases hdir : env.invoicesDirExists
    · rcases hrwD : processRows env okAt true ext env.rows ⟨0, 0, 0, 0, 0⟩ with ⟨stD, eD⟩
      rcases hrwL : processRows env okAt' false ext env.rows ⟨0, 0, 0, 0, 0⟩ with ⟨stL, eL⟩
      rcases hrwT : processRows env (fun _ => true) false ext env.rows ⟨0, 0, 0, 0, 0⟩
        with ⟨stT, eT⟩
      have hdry := processRows_dry env okAt ext env.rows ⟨0, 0, 0, 0, 0⟩
      rw [hrwD] at hdry
      simp only [] at hdry
      have hcmpL := processRows_compare env ext env.rows okAt okAt' true false
        ⟨0, 0, 0, 0, 0⟩ ⟨0, 0, 0, 0, 0⟩
      rw [hrwD, hrwL] at hcmpL
      simp only [] at hcmpL
      have hcmpT := processRows_compare env ext env.rows okAt (fun _ => true) true false
        ⟨0, 0, 0, 0, 0⟩ ⟨0, 0, 0, 0, 0⟩
      rw [hrwD, hrwT] at hcmpT
      simp only [] at hcmpT
      have hskT := processRows_skipped_cmp env ext okAt env.rows ⟨0, 0, 0, 0, 0⟩
        ⟨0, 0, 0, 0, 0⟩ rfl
      rw [hrwD, hrwT] at hskT
      simp only [] at hskT
      refine ⟨?_, ?_, ?_, ?_⟩
      · cases eD with
        | none => simp [process_invoices, hex, hdir, hrwD, hdry.2]
        | some m => simp [process_invoices, hex, hdir, hrwD, hdry.2]
      · intro s hs
        cases eD with
        | none =>
          have hsum : (⟨stD.processed, stD.sent, stD.skipped, stD.missing_file⟩ : Summary)
              = s := by
            have : process_invoices env okAt true ext =
                (.ok ⟨stD.processed, stD.sent, stD.skipped, stD.missing_file⟩, stD.calls) := by
              simp [process_invoices, hex, hdir, hrwD]
            rw [this] at hs
            simpa using hs
          rw [← hsum]
          simpa using hdry.1
        | some m =>
          have : process_invoices env okAt true ext = (.error m, stD.calls) := by
            simp [process_invoices, hex, hdir, hrwD]
          rw [this] at hs
          simp at hs
      · intro s s' hs hs'
        cases eD with
        | some m =>
          have : process_invoices env okAt true ext = (.error m, stD.calls) := by
            simp [process_invoices, hex, hdir, hrwD]
          rw [this] at hs
          simp at hs
        | none =>
          cases eL with
          | some m => exact absurd hcmpL.1 (by simp)
          | none =>
            have hsum : (⟨stD.processed, stD.sent, stD.skipped, stD.missing_file⟩ : Summary)
                = s := by
              have : process_invoices env okAt true ext =
                  (.ok ⟨stD.processed, stD.sent, stD.skipped, stD.missing_file⟩, stD.calls) := by
                simp [process_invoices, hex, hdir, hrwD]
              rw [this] at hs
              simpa using hs
            have hsum' : (⟨stL.processed, stL.sent, stL.skipped, stL.missing_file⟩ : Summary)
                = s' := by
              have : process_invoices env okAt' false ext =
                  (.ok ⟨stL.processed, stL.sent, stL.skipped, stL.missing_file⟩, stL.calls) := by
                simp [process_invoices, hex, hdir, hrwL]
              rw [this] at hs'
              simpa using hs'
            rw [← hsum, ← hsum']
            exact ⟨by simpa using hcmpL.2.2 trivial, by simpa using hcmpL.2.1 trivial⟩
      · intro s s' hs hs'
        cases eD with
        | some m =>
          have : process_invoices env okAt true ext = (.error m, stD.calls) := by
            simp [process_invoices, hex, hdir, hrwD]
          rw [this] at hs
          simp at hs
        | none =>
          cases eT with
          | some m => exact absurd hcmpT.1 (by simp)
          | none =>
            have hsum : (⟨stD.processed, stD.sent, stD.skipped, stD.missing_file⟩ : Summary)
                = s := by
              have : process_invoices env okAt true ext =
                  (.ok ⟨stD.processed, stD.sent, stD.skipped, stD.missing_file⟩, stD.calls) := by
                simp [process_invoices, hex, hdir, hrwD]
              rw [this] at hs
              simpa using hs
            have hsum' : (⟨stT.processed, stT.sent, stT.skipped, stT.missing_file⟩ : Summary)
                = s' := by
              have : process_invoices env (fun _ => true) false ext =
                  (.ok ⟨stT.processed, stT.sent, stT.skipped, stT.missing_file⟩, stT.calls) := by
                simp [process_invoices, hex, hdir, hrwT]
              rw [this] at hs'
              simpa using hs'
            rw [← hsum, ← hsum']
            simpa using hskT
    · refine ⟨by simp [process_invoices, hex, hdir], ?_, ?_, ?_⟩
      · intro s hs
        simp [process_invoices, hex, hdir] at hs
      · intro s s' hs hs'
        simp [process_invoices, hex, hdir] at hs
      · intro s s' hs hs'
        simp [process_invoices, hex, hdir] at hs
  · refine ⟨by simp [process_invoices, hex], ?_, ?_, ?_⟩
    · intro s hs
      simp [process_invoices, hex] at hs
    · intro s s' hs hs'
      simp [process_invoices, hex] at hs
    · intro s s' hs hs'
      simp [process_invoices, hex] at hs

/-- Witness for C4 on `envC4`: the dry run makes no dispatch call, reports
`sent = 0`, and agrees with the all-success live run on `processed`,
`missing_file` and `skipped`. -/
theorem c4_dry_run_isolation_witness :
    (process_invoices envC4 (fun _ => true) true (".pdf")).2 = 0 ∧
    (⟨1, 0, 0, 0⟩ : Summary).sent = 0 ∧
    ((⟨1, 0, 0, 0⟩ : Summary).processed = (⟨1, 1, 0, 0⟩ : Summary).processed ∧
      (⟨1, 0, 0, 0⟩ : Summary).missing_file = (⟨1, 1, 0, 0⟩ : Summary).missing_file) ∧
    (⟨1, 0, 0, 0⟩ : Summary).skipped = (⟨1, 1, 0, 0⟩ : Summary).skipped :=
  ⟨(c4_dry_run_isolation envC4 (fun _ => true) (fun _ => true) (".pdf")).1,
    (c4_dry_run_isolation envC4 (fun _ => true) (fun _ => true) (".pdf")).2.1 ⟨1, 0, 0, 0⟩ rfl,
    (c4_dry_run_isolation envC4 (fun _ => true) (fun _ => true) (".pdf")).2.2.1
      ⟨1, 0, 0, 0⟩ ⟨1, 1, 0, 0⟩ rfl rfl,
    (c4_dry_run_isolation envC4 (fun _ => true) (fun _ => true) (".pdf")).2.2.2
      ⟨1, 0, 0, 0⟩ ⟨1, 1, 0, 0⟩ rfl rfl⟩

theorem findFiveRuns_shape :
    ∀ (l : List Char) (leftOk : Bool) (cur : List Char),
      (∀ c ∈ cur, isDigitChar c = true) →
      ∀ x ∈ findFiveRuns leftOk cur l, x.data.length = 5 ∧ ∀ c ∈ x.data, isDigitChar c = true
  | [], leftOk, cur, hcur, x, hx => by
    simp only [findFiveRuns] at hx
    by_cases hc : (cur.length = 5 && leftOk : Bool)
    · rw [if_pos hc] at hx
      simp only [List.mem_singleton] at hx
      subst hx
      simp only [Bool.and_eq_true, decide_eq_true_eq] at hc
      exact ⟨by simpa using hc.1, by simpa using hcur⟩
    · rw [if_neg hc] at hx
      simp at hx
  | c :: cs, leftOk, cur, hcur, x, hx => by
    simp only [findFiveRuns] at hx
    by_cases hd : isDigitChar c = true
    · rw [if_pos hd] at hx
      refine findFiveRuns_shape cs leftOk (cur ++ [c]) ?_ x hx
      intro d hdm
      rcases List.mem_append.mp hdm with h | h
      · exact hcur d h
      · simp only [List.mem_singleton] at h
        subst h
        exact hd
    · rw [if_neg hd] at hx
      rcases List.mem_append.mp hx with h | h
      · by_cases hc : (cur.length = 5 && leftOk && !isWordChar c : Bool)
        · rw [if_pos hc] at h
          simp only [List.mem_singleton] at h
          subst h
          simp only [Bool.and_eq_true, decide_eq_true_eq] at hc
          exact ⟨by simpa using hc.1.1, by simpa using hcur⟩
        · rw [if_neg hc] at h
          simp at h
      · exact findFiveRuns_shape cs (!isWordChar c) [] (by simp) x h

theorem chunksOfFive_shape :
    ∀ l : List Char, (∀ c ∈ l, isDigitChar c = true) →
      ∀ x ∈ chunksOfFive l, x.data.length = 5 ∧ ∀ c ∈ x.data, isDigitChar c = true
  | a :: b :: c :: d :: e :: rest, hl, x, hx => by
    simp only [chunksOfFive] at hx
    rcases List.mem_cons.mp hx with h | h
    · subst h
      refine ⟨rfl, ?_⟩
      intro ch hch
      apply hl
      have hch5 : ch ∈ [a, b, c, d, e] := hch
      simp only [List.mem_cons, List.not_mem_nil, or_false] at hch5
      simp only [List.mem_cons]
      tauto
    · refine chunksOfFive_shape rest ?_ x h
      intro ch hch
      exact hl ch (by simp [hch])
  | [], _, x, hx => by simp [chunksOfFive] at hx
  | [a], _, x, hx => by simp [chunksOfFive] at hx
  | [a, b], _, x, hx => by simp [chunksOfFive] at hx
  | [a, b, c], _, x, hx => by simp [chunksOfFive] at hx
  | [a, b, c, d], _, x, hx => by simp [chunksOfFive] at hx

/-- C5 amended: the primary path of the Identifier Extractor returns, in
order, all maximal 5-digit runs bounded on each side by a non-WORD
character (letters, digits and underscore are word characters) or the
string edge — so a 5-digit run adjacent to a letter, as in `"x12345"`, is
NOT returned by the primary path; only if the primary path yields nothing
does the fallback strip all non-digits and chunk into consecutive 5-digit
groups from the left, discarding a short remainder, so `"1234567890"`
yields `["12345", "67890"]` and `"123"` yields `[]`; every returned string
is exactly 5 digit characters. -/
theorem c5_extractor_amended :
    (∀ v, ∀ x ∈ extract_five_digit_accounts v,
      x.data.length = 5 ∧ ∀ c ∈ x.data, isDigitChar c = true) ∧
    (∀ s : String, findFiveRuns true [] (pyStrip s.data) ≠ [] →
      extract_five_digit_accounts (some s) = findFiveRuns true [] (pyStrip s.data)) ∧
    extract_five_digit_accounts (some ("1234567890")) = ["12345", "67890"] ∧
    extract_five_digit_accounts (some ("123")) = [] ∧
    extract_five_digit_accounts (some ("x12345")) = ["12345"] ∧
    findFiveRuns true [] (("x12345").data) = [] := by
  refine ⟨?_, ?_, by decide, by decide, by decide, by decide⟩
  · intro v x hx
    cases v with
    | none => simp [extract_five_digit_accounts] at hx
    | some s =>
      simp only [extract_five_digit_accounts] at hx
      by_cases hs : pyStrip s.data = []
      · rw [if_pos hs] at hx
        simp at hx
      · rw [if_neg hs] at hx
        by_cases hm : findFiveRuns true [] (pyStrip s.data) ≠ []
        · rw [if_pos hm] at hx
          exact findFiveRuns_shape _ true [] (by simp) x hx
        · rw [if_neg hm] at hx
          refine chunksOfFive_shape _ ?_ x hx
          intro c hc
          exact (List.mem_filter.mp hc).2
  · intro s hne
    by_cases hs : pyStrip s.data = []
    · rw [hs] at hne
      simp [findFiveRuns] at hne
    · simp [extract_five_digit_accounts, hs, hne]

/-- Witness for C5 at concrete inputs: the 5-digit shape of an output, and
a case where the non-empty primary path is what is returned. -/
theorem c5_extractor_amended_witness :
    (("12345" : String).data.length = 5 ∧
      ∀ c ∈ ("12345" : String).data, isDigitChar c = true) ∧
    extract_five_digit_accounts (some ("7 12345 9")) =
      findFiveRuns true [] (pyStrip (("7 12345 9") : String).data) :=
  ⟨c5_extractor_amended.1 (some ("12345")) ("12345") (by decide),
    c5_extractor_amended.2.1 ("7 12345 9") (by decide)⟩

/-- C5 counterexample: on `"a12345 67890"` the regex word boundary in
`\b(\d{5})\b` rejects the letter-adjacent run `12345` (a letter is a word
character), so the code's primary path returns only `["67890"]`, whereas
the claim's non-digit-bounded primary path would return
`["12345", "67890"]`; on `"x12345"` the code's primary path returns
nothing (the result `["12345"]` comes from the fallback), whereas the
claim says the primary path returns it. -/
theorem c5_word_boundary_counterexample :
    extract_five_digit_accounts (some ("a12345 67890")) = ["67890"] ∧
    claimExtractFiveDigitAccounts (some ("a12345 67890")) = ["12345", "67890"] ∧
    findFiveRuns true [] (("x12345").data) = [] ∧
    claimFiveRunsDigitBounded true [] (("x12345").data) = ["12345"] := by
  refine ⟨by decide, by decide, by decide, by decide⟩

theorem lexLeB_total : ∀ a b : List Char, lexLeB a b = true ∨ lexLeB b a = true
  | [], _ => Or.inl rfl
  | _ :: _, [] => Or.inr rfl
  | a :: as, b :: bs => by
    rcases lt_trichotomy a b with h | h | h
    · left
      simp [lexLeB, h]
    · subst h
      rcases lexLeB_total as bs with ih | ih
      · left
        simp [lexLeB, ih, lt_irrefl]
      · right
        simp [lexLeB, ih, lt_irrefl]
    · right
      simp [lexLeB, h]

theorem lexLeB_trans :
    ∀ a b c : List Char, lexLeB a b = true → lexLeB b c = true → lexLeB a c = true
  | [], _, _, _, _ => rfl
  | _ :: _, [], _, h, _ => by simp [lexLeB] at h
  | _ :: _, _ :: _, [], _, h2 => by simp [lexLeB] at h2
  | a :: as, b :: bs, c :: cs, h1, h2 => by
    simp only [lexLeB] at h1 h2 ⊢
    by_cases hab : a < b
    · by_cases hbc : b < c
      · simp [hab.trans hbc]
      · by_cases hbc2 : b = c
        · subst hbc2
          simp [hab]
        · simp [hbc, hbc2] at h2
    · by_cases hab2 : a = b
      · subst hab2
        simp [hab] at h1
        by_cases hbc : a < c
        · simp [hbc]
        · by_cases hbc2 : a = c
          · subst hbc2
            simp [hbc] at h2
            simp [hbc, lexLeB_trans as bs cs h1 h2]
          · simp [hbc, hbc2] at h2
      · simp [hab, hab2] at h1

theorem lexLeB_antisymm : ∀ a b : List Char, lexLeB a b = true → lexLeB b a = true → a = b
  | [], [], _, _ => rfl
  | [], _ :: _, _, h2 => by simp [lexLeB] at h2
  | _ :: _, [], h1, _ => by simp [lexLeB] at h1
  | a :: as, b :: bs, h1, h2 => by
    simp only [lexLeB] at h1 h2
    by_cases hab : a < b
    · by_cases hba : b < a
      · exact absurd (hab.trans hba) (lt_irrefl a)
      · by_cases hba2 : b = a
        · rw [hba2] at hab
          exact absurd hab (lt_irrefl a)
        · simp [hba, hba2] at h2
    · by_cases hab2 : a = b
      · subst hab2
        simp [hab] at h1 h2
        rw [lexLeB_antisymm as bs h1 h2]
      · simp [hab, hab2] at h1

instance : IsTotal String nameLe :=
  ⟨fun a b => lexLeB_total a.data b.data⟩

instance : IsTrans String nameLe :=
  ⟨fun a b c => lexLeB_trans a.data b.data c.data⟩

instance : IsAntisymm String nameLe :=
  ⟨fun a b h1 h2 => by
    obtain ⟨la⟩ := a
    obtain ⟨lb⟩ := b
    exact congrArg String.mk (lexLeB_antisymm la lb h1 h2)⟩

theorem insertionSort_nameLe_perm_eq (l₁ l₂ : List String) (h : l₁.Perm l₂) :
    List.insertionSort nameLe l₁ = List.insertionSort nameLe l₂ :=
  List.eq_of_perm_of_sorted
    ((List.perm_insertionSort nameLe l₁).trans (h.trans (List.perm_insertionSort nameLe l₂).symm))
    (List.sorted_insertionSort nameLe l₁) (List.sorted_insertionSort nameLe l₂)

/-- C6 amended: among the directory's entries sorted lexicographically, the
File Matcher returns the first entry that is a regular file AND whose name
ends with the extension case-insensitively AND starts with
`<identifier>_` (a matching name that is not a regular file is skipped and
the scan continues); it returns at most one path, none when the directory
does not exist or nothing matches, and its result depends only on the set
of entries, not on the order the operating system lists them in
(determinism across repeated calls on unchanged directory contents). -/
theorem c6_matcher_amended (account ext : String) (isFile : String → Bool) :
    (∀ l₁ l₂ : List String, l₁.Perm l₂ →
      find_invoice_path account (.ok l₁) ext isFile =
        find_invoice_path account (.ok l₂) ext isFile) ∧
    find_invoice_path account .errNotFound ext isFile = .ok none ∧
    (∀ names name, find_invoice_path account (.ok names) ext isFile = .ok (some name) →
      invoiceEntryMatch account ext isFile name = true ∧ name ∈ names) ∧
    (∀ names, (∀ name ∈ names, invoiceEntryMatch account ext isFile name = false) →
      find_invoice_path account (.ok names) ext isFile = .ok none) := by
  refine ⟨?_, rfl, ?_, ?_⟩
  · intro l₁ l₂ h
    simp [find_invoice_path, insertionSort_nameLe_perm_eq l₁ l₂ h]
  · intro names name h
    simp only [find_invoice_path] at h
    have hf : (List.insertionSort nameLe names).find?
        (invoiceEntryMatch account ext isFile) = some name := by
      simpa using h
    exact ⟨List.find?_some hf,
      (List.perm_insertionSort nameLe names).mem_iff.mp (List.mem_of_find?_eq_some hf)⟩
  · intro names hall
    simp only [find_invoice_path]
    have hn : (List.insertionSort nameLe names).find?
        (invoiceEntryMatch account ext isFile) = none := by
      rw [List.find?_eq_none]
      intro x hx
      have := hall x ((List.perm_insertionSort nameLe names).mem_iff.mp hx)
      simp [this]
    rw [hn]

/-- Witness for C6: listing-order invariance on a two-entry directory, the
matched entry's properties, and the no-match case. -/
theorem c6_matcher_amended_witness :
    (find_invoice_path ("12345") (.ok ["12345_b.pdf", "12345_a.pdf"]) (".pdf") (fun _ => true) =
      find_invoice_path ("12345") (.ok ["12345_a.pdf", "12345_b.pdf"]) (".pdf")
        (fun _ => true)) ∧
    (invoiceEntryMatch ("12345") (".pdf") (fun _ => true) ("12345_a.pdf") = true ∧
      ("12345_a.pdf" : String) ∈ (["12345_b.pdf", "12345_a.pdf"] : List String)) ∧
    find_invoice_path ("12345") (.ok ["99999_x.pdf"]) (".pdf") (fun _ => true) = .ok none :=
  ⟨(c6_matcher_amended ("12345") (".pdf") (fun _ => true)).1
      (["12345_b.pdf", "12345_a.pdf"]) (["12345_a.pdf", "12345_b.pdf"])
      (List.Perm.swap ("12345_a.pdf") ("12345_b.pdf") []),
    (c6_matcher_amended ("12345") (".pdf") (fun _ => true)).2.2.1
      (["12345_b.pdf", "12345_a.pdf"]) ("12345_a.pdf") rfl,
    (c6_matcher_amended ("12345") (".pdf") (fun _ => true)).2.2.2
      (["99999_x.pdf"]) (by decide)⟩

/-- C6 counterexample: with entries `12345_a.pdf` (not a regular file, e.g.
a subdirectory) and `12345_b.pdf` (a regular file), the code skips the
lexicographically first matching name because of its `os.path.isfile`
check and returns `12345_b.pdf`, while the claim's matcher — which selects
purely by extension and prefix — returns `12345_a.pdf`. -/
theorem c6_isfile_counterexample :
    find_invoice_path ("12345") (.ok ["12345_a.pdf", "12345_b.pdf"]) (".pdf")
        (fun n => n == "12345_b.pdf") = .ok (some ("12345_b.pdf")) ∧
    claimFindInvoicePath ("12345") (.ok ["12345_a.pdf", "12345_b.pdf"]) (".pdf")
      = .ok (some ("12345_a.pdf")) :=
  ⟨rfl, rfl⟩

theorem processAccounts_errNotFound (env : Env) (okAt : Nat → Bool) (dryRun : Bool)
    (ext : String) (henv : env.listing = .errNotFound) :
    ∀ accounts st rs,
      (processAccounts env okAt dryRun ext accounts st rs).1.missing_file =
          st.missing_file + accounts.length ∧
        (processAccounts env okAt dryRun ext accounts st rs).1.sent = st.sent ∧
        (processAccounts env okAt dryRun ext accounts st rs).1.skipped = st.skipped ∧
        (processAccounts env okAt dryRun ext accounts st rs).2.2 = none
  | [], st, rs => ⟨rfl, rfl, rfl, rfl⟩
  | a :: rest, st, rs => by
    have hf : find_invoice_path a env.listing ext env.isFile = .ok none := by
      rw [henv]
      rfl
    have ih := processAccounts_errNotFound env okAt dryRun ext henv rest
      { st with missing_file := st.missing_file + 1 } rs
    simp only [processAccounts, hf]
    refine ⟨?_, ih.2.1, ih.2.2.1, ih.2.2.2⟩
    rw [ih.1]
    simp only [List.length_cons]
    omega

/-- C7 amended: a `FileNotFoundError` when listing the invoices directory
(directory absent) is caught inside the File Matcher and treated as a
no-match — the caller then counts every identifier of the row as a
missing-file outcome and the run continues; but any OTHER listing error
(permission denied, not-a-directory, ...) is NOT caught: it propagates out
of the File Matcher and aborts the row and the run. -/
theorem c7_listing_error_amended (account ext : String) (isFile : String → Bool) :
    find_invoice_path account .errNotFound ext isFile = .ok none ∧
    (∀ m, find_invoice_path account (.errOther m) ext isFile = .error m) ∧
    (∀ (env : Env) (okAt : Nat → Bool) (dryRun : Bool) (ext' : String) accounts st rs,
      env.listing = .errNotFound →
      (processAccounts env okAt dryRun ext' accounts st rs).1.missing_file =
          st.missing_file + accounts.length ∧
        (processAccounts env okAt dryRun ext' accounts st rs).1.skipped = st.skipped ∧
        (processAccounts env okAt dryRun ext' accounts st rs).2.2 = none) ∧
    (∀ (env : Env) (okAt : Nat → Bool) (dryRun : Bool) (ext' : String) a rest st rs m,
      env.listing = .errOther m →
      processAccounts env okAt dryRun ext' (a :: rest) st rs = (st, rs, some m)) := by
  refine ⟨rfl, fun m => rfl, ?_, ?_⟩
  · intro env okAt dryRun ext' accounts st rs henv
    have h := processAccounts_errNotFound env okAt dryRun ext' henv accounts st rs
    exact ⟨h.1, h.2.2.1, h.2.2.2⟩
  · intro env okAt dryRun ext' a rest st rs m henv
    have hf : find_invoice_path a env.listing ext' env.isFile = .error m := by
      rw [henv]
      rfl
    simp [processAccounts, hf]

/-- Environment of the C7 counterexample: the invoices directory exists at
check time but listing it fails with a permission error. -/
def envC7 : Env :=
  { excelExists := true, invoicesDirExists := true,
    listing := .errOther ("Permission denied"), isFile := fun _ => true,
    rows := [{ company := none, rawAccount := some ("12345"),
               rawEmails := some ("a@x.com") }] }

/-- Environment of the C7 witness: the listing fails with
`FileNotFoundError`. -/
def envC7b : Env :=
  { excelExists := true, invoicesDirExists := true, listing := .errNotFound,
    isFile := fun _ => true,
    rows := [{ company := none, rawAccount := some ("12345"),
               rawEmails := some ("a@x.com") }] }

/-- Witness for C7: an uncaught listing error propagates out of the account
loop unchanged, and a `FileNotFoundError` listing is counted as one
missing file per identifier. -/
theorem c7_listing_error_amended_witness :
    find_invoice_path ("99999") (.errOther ("boom")) (".txt") (fun _ => false) =
        .error ("boom") ∧
    processAccounts envC7 (fun _ => true) false (".pdf") (("12345") :: ["67890"])
        ⟨0, 0, 0, 0, 0⟩ 0 = (⟨0, 0, 0, 0, 0⟩, 0, some ("Permission denied")) ∧
    (processAccounts envC7b (fun _ => true) false (".pdf") ["12345", "67890"]
        ⟨0, 0, 0, 0, 0⟩ 0).1.missing_file =
      (⟨0, 0, 0, 0, 0⟩ : RunState).missing_file + (["12345", "67890"] : List String).length :=
  ⟨(c7_listing_error_amended ("99999") (".txt") (fun _ => false)).2.1 ("boom"),
    (c7_listing_error_amended ("99999") (".txt") (fun _ => false)).2.2.2 envC7
      (fun _ => true) false (".pdf") ("12345") (["67890"]) ⟨0, 0, 0, 0, 0⟩ 0
      ("Permission denied") rfl,
    ((c7_listing_error_amended ("99999") (".txt") (fun _ => false)).2.2.1 envC7b
      (fun _ => true) false (".pdf") (["12345", "67890"]) ⟨0, 0, 0, 0, 0⟩ 0 rfl).1⟩

/-- C7 counterexample: the claim says ANY listing failure is treated as a
no-match and never propagated, but a permission error (any `OSError` other
than `FileNotFoundError`) is not caught by the `except FileNotFoundError`
clause: the File Matcher propagates it and the whole run aborts with an
error instead of counting a missing file. -/
theorem c7_listing_error_counterexample :
    find_invoice_path ("12345") (.errOther ("Permission denied")) (".pdf") (fun _ => true) =
        .error ("Permission denied") ∧
    process_invoices envC7 (fun _ => true) false (".pdf") =
        (.error ("Permission denied"), 0) ∧
    process_invoices envC7 (fun _ => true) true (".pdf") =
      (.error ("Permission denied"), 0) :=
  ⟨rfl, rfl, rfl⟩

theorem pyStrip_subset (l : List Char) : ∀ c ∈ pyStrip l, c ∈ l := by
  intro c hc
  unfold pyStrip at hc
  have h1 := List.mem_reverse.mp hc
  have h2 := (List.dropWhile_sublist isSpaceChar).subset h1
  have h3 := List.mem_reverse.mp h2
  exact (List.dropWhile_sublist isSpaceChar).subset h3

theorem splitFieldsAux_no_sep :
    ∀ (l : List Char) (inSep : Bool) (cur : List Char),
      (∀ c ∈ cur, isSepChar c = false) →
      ∀ f ∈ splitFieldsAux inSep cur l, ∀ c ∈ f, isSepChar c = false
  | [], inSep, cur, hcur, f, hf => by
    cases inSep with
    | false =>
      simp only [splitFieldsAux, Bool.false_eq_true, if_false, List.mem_singleton] at hf
      subst hf
      exact hcur
    | true =>
      simp only [splitFieldsAux, if_true, List.mem_singleton] at hf
      subst hf
      simp
  | c :: cs, inSep, cur, hcur, f, hf => by
    cases inSep with
    | true =>
      by_cases hsep : isSepChar c = true
      · exact splitFieldsAux_no_sep cs true [] (by simp) f
          (by simpa [splitFieldsAux, hsep] using hf)
      · have hcs : isSepChar c = false := by simpa using hsep
        exact splitFieldsAux_no_sep cs false [c]
          (by simpa using hcs) f (by simpa [splitFieldsAux, hcs] using hf)
    | false =>
      by_cases hsep : isSepChar c = true
      · have hf' : f = cur ∨ f ∈ splitFieldsAux true [] cs := by
          simpa [splitFieldsAux, hsep] using hf
        rcases hf' with hf' | hf'
        · subst hf'
          exact hcur
        · exact splitFieldsAux_no_sep cs true [] (by simp) f hf'
      · have hcs : isSepChar c = false := by simpa using hsep
        refine splitFieldsAux_no_sep cs false (cur ++ [c]) ?_ f
          (by simpa [splitFieldsAux, hcs] using hf)
        intro d hd
        rcases List.mem_append.mp hd with h | h
        · exact hcur d h
        · simp only [List.mem_singleton] at h
          subst h
          exact hcs

/-- C8 amended: the Recipient Parser returns, in order, the trimmed tokens
containing an `@` character obtained by splitting the input on any run of
comma, semicolon, or whitespace characters; tokens without `@` are
dropped, empty input yields the empty sequence, and every returned token
is non-empty and free of separator characters.  The output is NOT
set-like: an address occurring twice in the cell is returned twice. -/
theorem c8_recipient_parser_amended :
    (∀ raw, ∀ p ∈ split_emails raw,
      p.data ≠ [] ∧ ('@') ∈ p.data ∧ ∀ c ∈ p.data, isSepChar c = false) ∧
    split_emails none = [] ∧
    split_emails (some ("")) = [] ∧
    split_emails (some ("a@x.com; b@y.com c@z.com")) = ["a@x.com", "b@y.com", "c@z.com"] ∧
    split_emails (some ("notanemail")) = [] ∧
    split_emails (some ("a@x.com, a@x.com")) = ["a@x.com", "a@x.com"] := by
  refine ⟨?_, rfl, by decide, by decide, by decide, by decide⟩
  intro raw p hp
  cases raw with
  | none => simp [split_emails] at hp
  | some s =>
    simp only [split_emails] at hp
    by_cases hs : pyStrip s.data = []
    · rw [if_pos hs] at hp
      simp at hp
    · rw [if_neg hs] at hp
      rcases List.mem_map.mp hp with ⟨q, hq, hpq⟩
      rcases List.mem_filter.mp hq with ⟨hqmem, hqpred⟩
      rcases List.mem_map.mp hqmem with ⟨f, hf, hqf⟩
      subst hpq
      simp only [Bool.and_eq_true, Bool.not_eq_true'] at hqpred
      refine ⟨?_, ?_, ?_⟩
      · intro h
        have hqq : q = [] := h
        rw [hqq] at hqpred
        simp at hqpred
      · exact List.mem_of_elem_eq_true hqpred.2
      · intro c hc
        have hcq : c ∈ q := hc
        rw [← hqf] at hcq
        exact splitFieldsAux_no_sep (pyStrip s.data) false [] (by simp) f hf c
          (pyStrip_subset f c hcq)

/-- Witness for C8 at a concrete parsed token. -/
theorem c8_recipient_parser_amended_witness :
    ("a@x.com" : String).data ≠ [] ∧ ('@') ∈ ("a@x.com" : String).data ∧
      ∀ c ∈ ("a@x.com" : String).data, isSepChar c = false :=
  c8_recipient_parser_amended.1 (some ("a@x.com")) ("a@x.com") (by decide)

/-- C8 counterexample: the claim says no address appears twice in the
output, but `split_emails` performs no deduplication — a duplicated
address in the cell is returned twice. -/
theorem c8_duplicates_counterexample :
    split_emails (some ("a@x.com a@x.com")) = ["a@x.com", "a@x.com"] ∧
    ¬ (split_emails (some ("a@x.com a@x.com"))).Nodup := by
  exact ⟨by decide, by decide⟩

theorem replaceFuel_nil (pat rep : List Char) (fuel : Nat) :
    replaceFuel pat rep fuel [] = [] := by
  cases fuel with
  | zero => rfl
  | succ n => rfl

theorem replaceFuel_of_no_occurrence (pat rep : List Char) :
    ∀ (fuel : Nat) (s : List Char), s.length ≤ fuel → ¬ pat <:+: s →
      replaceFuel pat rep fuel s = s
  | fuel, [], _, _ => replaceFuel_nil pat rep fuel
  | 0, c :: cs, hlen, _ => by simp at hlen
  | fuel + 1, c :: cs, hlen, hni => by
    have hp : pat.isPrefixOf (c :: cs) = false := by
      rw [Bool.eq_false_iff]
      intro hp
      exact hni (List.isPrefixOf_iff_prefix.mp hp).isInfix
    simp only [replaceFuel, hp, Bool.false_eq_true, if_false]
    rw [replaceFuel_of_no_occurrence pat rep fuel cs (by simpa using hlen)
      (fun h => hni (List.infix_cons h))]

theorem infix_append_foreign (pat : List Char) (hpat : pat ≠ []) :
    ∀ rep : List Char, (∀ c ∈ rep, c ∉ pat) →
      ∀ R, pat <:+: rep ++ R → pat <:+: R
  | [], _, R, h => by simpa using h
  | r :: rep', hdis, R, h => by
    have hdis' : ∀ c ∈ rep', c ∉ pat := fun c hc => hdis c (List.mem_cons_of_mem r hc)
    rcases List.infix_cons_iff.mp (by simpa using h) with hpre | hinf
    · rcases hp : pat with _ | ⟨p₀, pat'⟩
      · exact absurd hp hpat
      · rw [hp] at hpre
        have hr : r ∈ pat := by
          rw [hp, ← (List.cons_prefix_cons.mp hpre).1]
          exact List.mem_cons_self p₀ pat'
        exact absurd hr (hdis r (List.mem_cons_self r rep'))
    · exact infix_append_foreign pat hpat rep' hdis' R hinf

theorem prefix_pullback_replaceFuel (pat rep : List Char) (hrep : rep ≠ [])
    (hdis : ∀ c ∈ rep, c ∉ pat) :
    ∀ (fuel : Nat) (s p : List Char), s.length ≤ fuel → (∀ c ∈ p, c ∈ pat) →
      p <+: replaceFuel pat rep fuel s → p <+: s
  | fuel, [], p, _, _, hpre => by
    rw [replaceFuel_nil pat rep fuel] at hpre
    exact hpre
  | 0, c :: cs, p, hlen, _, _ => by simp at hlen
  | fuel + 1, c :: cs, p, hlen, hchars, hpre => by
    by_cases hp : pat.isPrefixOf (c :: cs) = true
    · simp only [replaceFuel, hp, if_true] at hpre
      cases p with
      | nil => exact List.nil_prefix
      | cons e p' =>
        rcases hr : rep with _ | ⟨r₀, rep'⟩
        · exact absurd hr hrep
        · rw [hr] at hpre
          have he : e = r₀ := (List.cons_prefix_cons.mp (by simpa using hpre)).1
          have hep : e ∈ pat := hchars e (List.mem_cons_self e p')
          rw [he] at hep
          exact absurd hep (hdis r₀ (by rw [hr]; exact List.mem_cons_self r₀ rep'))
    · simp only [replaceFuel, hp, Bool.false_eq_true, if_false] at hpre
      cases p with
      | nil => exact List.nil_prefix
      | cons e p' =>
        have he : e = c := (List.cons_prefix_cons.mp hpre).1
        have hp' : p' <+: replaceFuel pat rep fuel cs := (List.cons_prefix_cons.mp hpre).2
        have hrec := prefix_pullback_replaceFuel pat rep hrep hdis fuel cs p'
          (by simpa using hlen) (fun d hd => hchars d (List.mem_cons_of_mem e hd)) hp'
        rw [he]
        exact List.cons_prefix_cons.mpr ⟨rfl, hrec⟩

theorem not_infix_replaceFuel (pat rep : List Char) (hpat : pat ≠ []) (hrep : rep ≠ [])
    (hdis : ∀ c ∈ rep, c ∉ pat) :
    ∀ (fuel : Nat) (s : List Char), s.length ≤ fuel →
      ¬ pat <:+: replaceFuel pat rep fuel s
  | fuel, [], _ => by
    rw [replaceFuel_nil pat rep fuel]
    intro h
    exact hpat (List.eq_nil_of_infix_nil h)
  | 0, c :: cs, hlen => by simp at hlen
  | fuel + 1, c :: cs, hlen => by
    by_cases hp : pat.isPrefixOf (c :: cs) = true
    · simp only [replaceFuel, hp, if_true]
      intro hinf
      have h1 : pat <:+: replaceFuel pat rep fuel ((c :: cs).drop pat.length) :=
        infix_append_foreign pat hpat rep hdis _ hinf
      have hpl : 1 ≤ pat.length := by
        cases hp2 : pat with
        | nil => exact absurd hp2 hpat
        | cons d ds => simp
      have hlen' : ((c :: cs).drop pat.length).length ≤ fuel := by
        simp only [List.length_drop, List.length_cons]
        simp only [List.length_cons] at hlen
        omega
      exact not_infix_replaceFuel pat rep hpat hrep hdis fuel _ hlen' h1
    · simp only [replaceFuel, hp, Bool.false_eq_true, if_false]
      intro hinf
      rcases List.infix_cons_iff.mp hinf with hpre | htail
      · have hpre' : pat <+: replaceFuel pat rep (fuel + 1) (c :: cs) := by
          simp only [replaceFuel, hp, Bool.false_eq_true, if_false]
          exact hpre
        have hback := prefix_pullback_replaceFuel pat rep hrep hdis (fuel + 1) (c :: cs) pat
          hlen (fun d hd => hd) hpre'
        rw [← List.isPrefixOf_iff_prefix] at hback
        rw [hback] at hp
        exact hp rfl
      · exact not_infix_replaceFuel pat rep hpat hrep hdis fuel cs (by simpa using hlen) htail

theorem digit_not_mem_accountPat (c : Char) (hd : isDigitChar c = true) :
    c ∉ ("%ACCOUNT%").data := by
  intro hc
  have hc9 : c ∈ ['%', 'A', 'C', 'C', 'O', 'U', 'N', 'T', '%'] := hc
  simp only [List.mem_cons, List.not_mem_nil, or_false] at hc9
  rcases hc9 with h | h | h | h | h | h | h | h | h
  all_goals (subst h; exact absurd hd (by decide))

/-- C9 amended: rendering substitutes, as leftmost non-overlapping literal
text replacement, every occurrence of `%ACCOUNT%` in the template with the
all-digit identifier (after which no `%ACCOUNT%` occurrence remains in
that intermediate string), and then every occurrence of `%COMPANY%` with
the company value (empty when missing); a template containing neither
placeholder is returned unchanged.  The second substitution can, however,
leave or recreate placeholder text in the final output — through a
company value containing placeholder text, or through junctions of the
removed text with its surroundings, as in
`render "%ACCOUN%COMPANY%T%" "12345" none = "%ACCOUNT%"`. -/
theorem c9_renderer_amended :
    (∀ (t a : String) (c : Option String),
      ¬ ("%ACCOUNT%").data <:+: t.data → ¬ ("%COMPANY%").data <:+: t.data →
      renderTemplate t a c = t) ∧
    (∀ (t a : String), a.data ≠ [] → (∀ ch ∈ a.data, isDigitChar ch = true) →
      ¬ ("%ACCOUNT%").data <:+: pyReplace t.data (("%ACCOUNT%").data) a.data) ∧
    renderTemplate ("%ACCOUN%COMPANY%T%") ("12345") none = "%ACCOUNT%" ∧
    renderTemplate ("Dear %COMPANY%, invoice for account %ACCOUNT%.") ("12345")
      (some ("Acme")) = "Dear Acme, invoice for account 12345." := by
  refine ⟨?_, ?_, rfl, rfl⟩
  · intro t a c hA hC
    unfold renderTemplate pyReplace
    rw [replaceFuel_of_no_occurrence _ _ _ _ le_rfl hA,
      replaceFuel_of_no_occurrence _ _ _ _ le_rfl hC]
  · intro t a hne hdig
    unfold pyReplace
    exact not_infix_replaceFuel _ _ (by decide) hne
      (fun ch hch => digit_not_mem_accountPat ch (hdig ch hch)) _ _ le_rfl

/-- Witness for C9: a placeholder-free template is returned unchanged, and
replacing `%ACCOUNT%` with a digit identifier leaves no `%ACCOUNT%`. -/
theorem c9_renderer_amended_witness :
    renderTemplate ("Hello there") ("12345") (some ("Acme")) = "Hello there" ∧
    ¬ ("%ACCOUNT%").data <:+:
      pyReplace (("Re: %ACCOUNT%").data) (("%ACCOUNT%").data) (("12345").data) :=
  ⟨c9_renderer_amended.1 ("Hello there") ("12345") (some ("Acme")) (by decide) (by decide),
    c9_renderer_amended.2.1 ("Re: %ACCOUNT%") ("12345") (by decide) (by decide)⟩

/-- C9 counterexample: with identifier `12345` and a MISSING company value,
the template `"%ACCOUN%COMPANY%T%"` contains no `%ACCOUNT%` occurrence, so
the first substitution is the identity; removing its `%COMPANY%`
occurrence then joins `"%ACCOUN"` with `"T%"`, and the output is exactly
`"%ACCOUNT%"` — an occurrence of a placeholder remains in the output,
contradicting the claim. -/
theorem c9_placeholder_remains_counterexample :
    renderTemplate ("%ACCOUN%COMPANY%T%") ("12345") none = "%ACCOUNT%" ∧
    ("%ACCOUNT%").data <:+: (renderTemplate ("%ACCOUN%COMPANY%T%") ("12345") none).data :=
  ⟨rfl, by decide⟩

/-- Environment of the C10 witness: one row whose identifier `12345` has a
matching invoice file. -/
def envC10 : Env :=
  { excelExists := true, invoicesDirExists := true, listing := .ok ["12345_x.pdf"],
    isFile := fun _ => true,
    rows := [{ company := none, rawAccount := some ("12345"),
               rawEmails := some ("a@x.com") }] }

/-- C10: with `max_retries ≤ 0`, `range(max_retries)` is empty, so the
retry loop of `send_email_with_attachment` runs zero attempts — no
transport session, no sleep, no error — and the function returns
normally; consequently every dispatch outcome is a normal return, the run
behaves as if every send succeeded, and the Row Processor counts each
matched identifier as sent (e.g. `sent = 1` on a one-row run) even though
nothing was transmitted. -/
theorem c10_nonpositive_retries (mr : Int) (hmr : mr ≤ 0) :
    (∀ (okAt : Nat → Bool) (delay : ℚ),
      send_email_with_attachment okAt mr delay = ([], .returned)) ∧
    (∀ (attemptOk : Nat → Nat → Bool) (delay : ℚ),
      dispatchOk attemptOk mr delay = fun _ => true) ∧
    (∀ (attemptOk : Nat → Nat → Bool) (delay : ℚ) (env : Env) (ext : String),
      process_invoices env (dispatchOk attemptOk mr delay) false ext =
        process_invoices env (fun _ => true) false ext) ∧
    (∀ (attemptOk : Nat → Nat → Bool) (delay : ℚ),
      process_invoices envC10 (dispatchOk attemptOk mr delay) false (".pdf") =
        (.ok ⟨1, 1, 0, 0⟩, 1)) := by
  have h0 : mr.toNat = 0 := Int.toNat_of_nonpos hmr
  have hsend : ∀ (okAt : Nat → Bool) (delay : ℚ),
      send_email_with_attachment okAt mr delay = ([], .returned) := by
    intro okAt delay
    unfold send_email_with_attachment
    rw [h0]
    rfl
  have hdisp : ∀ (attemptOk : Nat → Nat → Bool) (delay : ℚ),
      dispatchOk attemptOk mr delay = fun _ => true := by
    intro attemptOk delay
    funext i
    unfold dispatchOk
    rw [hsend]
    rfl
  refine ⟨hsend, hdisp, ?_, ?_⟩
  · intro attemptOk delay env ext
    rw [hdisp]
  · intro attemptOk delay
    rw [hdisp]
    rfl

/-- Witness for C10 at `max_retries = -1`: no attempt is made, yet the
one-row run reports the identifier as sent. -/
theorem c10_nonpositive_retries_witness :
    send_email_with_attachment (fun _ => false) (-1) 1 = ([], .returned) ∧
    process_invoices envC10 (dispatchOk (fun _ _ => false) (-1) 1) false (".pdf") =
      (.ok ⟨1, 1, 0, 0⟩, 1) :=
  ⟨(c10_nonpositive_retries (-1) (by decide)).1 (fun _ => false) 1,
    (c10_nonpositive_retries (-1) (by decide)).2.2.2 (fun _ _ => false) 1⟩
